import Mathlib

/-!
kNN over the Iris set: a shallow embedding of `main.go`.

The embedding follows `src/main.go` function by function.

Modelling conventions.

* `float64` feature values and distances are exact rationals (`ℚ`): records hold
  finite numbers, and `euclidianDistance` computes without rounding.  The same
  function with every operation rounded to the nearest float64 is
  `euclidianDistance64`; it is what decides whether a distance is exactly zero.
  The type `Float64` carries `NaN` and the two infinities explicitly.
* A Go slice is a `List`; an index that is out of range panics, which is the
  result `none`.
* A Go `map[string]int` is an association list with first-match lookup.  The
  order in which `range` visits a map is not fixed by the language.
* The Go standard library is not part of the repository.  What the program
  uses of it (`math.Sqrt`, `sort.Sort`, the `range` order of a map) is
  collected in `GoRuntime`, together with the documented contract of
  `sort.Sort`: the result is a rearrangement of the input made with `Swap`
  only, in ascending order as determined by `Less`, and not guaranteed to be
  stable.  `GoSort` transcribes the algorithm the library runs, and
  `libraryRuntime` is the runtime that sorts with it.
-/

namespace KNN

/-! ## Data model -/

/-- The struct `irisRecord` of `main.go`. -/
structure irisRecord where
  sepalLength : ℚ
  sepalWidth : ℚ
  petalLength : ℚ
  petalWidth : ℚ
  species : String
  deriving DecidableEq

/-- The struct `classVote` of `main.go`. -/
structure classVote where
  key : String
  value : Nat
  deriving DecidableEq

/-- The struct `distancePair` of `main.go`. -/
structure distancePair where
  record : irisRecord
  distance : ℚ
  deriving DecidableEq

/-- The values a `float64` division can produce. -/
inductive Float64 where
  | nan : Float64
  | posInf : Float64
  | negInf : Float64
  | num : ℚ → Float64
  deriving DecidableEq

namespace Float64

/-- Conversion `float64(n)` of a Go `int`. -/
def ofInt (n : Int) : Float64 := num n

/-- The operator `/` on `float64`: `0/0` is NaN, `x/0` is an infinity. -/
def div : Float64 → Float64 → Float64
  | num a, num b =>
    if b = 0 then (if a = 0 then nan else if 0 < a then posInf else negInf)
    else num (a / b)
  | num _, posInf => num 0
  | num _, negInf => num 0
  | posInf, num b => if 0 ≤ b then posInf else negInf
  | negInf, num b => if 0 ≤ b then negInf else posInf
  | _, _ => nan

/-- The operator `*` on `float64`: NaN propagates, `0 * Inf` is NaN. -/
def mul : Float64 → Float64 → Float64
  | num a, num b => num (a * b)
  | num a, posInf => if a = 0 then nan else if 0 < a then posInf else negInf
  | num a, negInf => if a = 0 then nan else if 0 < a then negInf else posInf
  | posInf, num b => if b = 0 then nan else if 0 < b then posInf else negInf
  | negInf, num b => if b = 0 then nan else if 0 < b then negInf else posInf
  | posInf, posInf => posInf
  | negInf, negInf => posInf
  | posInf, negInf => negInf
  | negInf, posInf => negInf
  | _, _ => nan

/-- The comparison `<=` on `float64`: false as soon as one side is NaN. -/
def le : Float64 → Float64 → Bool
  | num a, num b => decide (a ≤ b)
  | negInf, num _ => true
  | negInf, posInf => true
  | negInf, negInf => true
  | num _, posInf => true
  | posInf, posInf => true
  | _, _ => false

end Float64

/-! ## The library functions the program calls -/

/-- A `Less` method that `sort.Sort` can order by: a strict weak ordering. -/
def StrictWeakOrder {α : Type} (less : α → α → Bool) : Prop :=
  (∀ a, less a a = false) ∧
  (∀ a b c, less a b = true → less b c = true → less a c = true) ∧
  (∀ a b c, less a b = false → less b c = false → less a c = false)

/-- The part of the Go runtime and standard library that `main.go` relies on.
`sort` is `sort.Sort` seen as a function of the `Less` method and the slice.
`mapRange` is the order in which a `range` loop visits the entries of a map. -/
structure GoRuntime where
  sqrt : ℚ → ℚ
  sort : {α : Type} → (α → α → Bool) → List α → List α
  sort_perm : ∀ {α : Type} (less : α → α → Bool) (l : List α), (sort less l).Perm l
  sort_sorted : ∀ {α : Type} (less : α → α → Bool) (l : List α),
    StrictWeakOrder less → (sort less l).Pairwise (fun a b => less b a = false)
  mapRange : List (String × Nat) → List (String × Nat)
  mapRange_perm : ∀ m, (mapRange m).Perm m

/-! ## Accuracy scorer -/

/-- The loop `for x := range testSet` of `getAccuracy`: `n` iterations are
left, `x` is the loop index and `correct` the running count. -/
def getAccuracy.loop (testSet : List irisRecord) (predictions : List String) :
    Nat → Nat → Int → Option Int
  | 0, _, correct => some correct
  | n + 1, x, correct =>
    match testSet[x]?, predictions[x]? with
    | some t, some p =>
      getAccuracy.loop testSet predictions n (x + 1)
        (if t.species = p then correct + 1 else correct)
    | _, _ => none

/-- The function `getAccuracy` of `main.go`. -/
def getAccuracy (testSet : List irisRecord) (predictions : List String) : Option Float64 :=
  match getAccuracy.loop testSet predictions testSet.length 0 0 with
  | some correct =>
    some (Float64.mul
      (Float64.div (Float64.ofInt correct) (Float64.ofInt testSet.length))
      (Float64.num 100))
  | none => none

/-- Whether index `i` counts as correct: `testSet[i].species == predictions[i]`. -/
def agreeAt (testSet : List irisRecord) (predictions : List String) (i : Nat) : Bool :=
  (testSet[i]?).map (fun t => t.species) == predictions[i]?

/-- The number of indices `i` of the test set with
`testSet[i].species == predictions[i]`. -/
def correctCount (testSet : List irisRecord) (predictions : List String) : Nat :=
  (List.range testSet.length).countP (agreeAt testSet predictions)

/-- Every prediction equals the label of the corresponding record. -/
def AllCorrect (testSet : List irisRecord) (predictions : List String) : Prop :=
  ∀ (i : Nat) (t : irisRecord) (p : String),
    testSet[i]? = some t → predictions[i]? = some p → t.species = p

/-- No prediction equals the label of the corresponding record. -/
def AllWrong (testSet : List irisRecord) (predictions : List String) : Prop :=
  ∀ (i : Nat) (t : irisRecord) (p : String),
    testSet[i]? = some t → predictions[i]? = some p → t.species ≠ p

/-! ## Vote resolver -/

/-- A Go `map[string]int`, as the list of its entries. -/
abbrev VotesMap := List (String × Nat)

/-- The function `contains` of `main.go`. -/
def contains (votesMap : VotesMap) (name : String) : Bool :=
  votesMap.any (fun e => e.1 == name)

/-- The map read `m[key]`: the zero value when the key is absent. -/
def mapIndex : VotesMap → String → Nat
  | [], _ => 0
  | (k, v) :: m, key => if k = key then v else mapIndex m key

/-- The map write `m[key] = v`. -/
def mapAssign : VotesMap → String → Nat → VotesMap
  | [], key, v => [(key, v)]
  | (k, w) :: m, key, v => if k = key then (key, v) :: m else (k, w) :: mapAssign m key v

/-- The body of the first loop of `getResponse`, run for the neighbour `n`. -/
def getResponse.step (classVotes : VotesMap) (n : irisRecord) : VotesMap :=
  let response := n.species
  if contains classVotes response then
    mapAssign classVotes response (mapIndex classVotes response + 1)
  else
    mapAssign classVotes response 1

/-- The first loop of `getResponse`: the vote tally, from the empty map. -/
def getResponse.tally (neighbors : List irisRecord) : VotesMap :=
  neighbors.foldl getResponse.step []

/-- What the tally holds once the labels `labels` have been counted. -/
def TallyOf (m : VotesMap) (labels : List String) : Prop :=
  (m.map Prod.fst).Nodup ∧
    ∀ l, (l ∈ m.map Prod.fst ↔ l ∈ labels) ∧ mapIndex m l = labels.count l

/-- The method `sortedClassVotes.Less`, on the two elements compared. -/
def sortedClassVotes.Less (a b : classVote) : Bool := decide (a.value < b.value)

/-- The `Less` of `sort.Reverse(data)`: that of `data` with its arguments swapped. -/
def sortReverse {α : Type} (less : α → α → Bool) : α → α → Bool := fun a b => less b a

/-- The function `getResponse` of `main.go`. -/
def getResponse (rt : GoRuntime) (neighbors : List irisRecord) : List classVote :=
  let classVotes := getResponse.tally neighbors
  let scv := (rt.mapRange classVotes).map (fun e => classVote.mk e.1 e.2)
  rt.sort (sortReverse sortedClassVotes.Less) scv

/-! ## Distance function and neighbour selector -/

/-- The function `euclidianDistance` of `main.go` in exact arithmetic: `math.Pow(x, 2)`
is the exact square and `math.Sqrt` is the square root of the runtime. -/
def euclidianDistance (rt : GoRuntime) (instanceOne instanceTwo : irisRecord) : ℚ :=
  let distance : ℚ := 0
  let distance := distance + (instanceOne.petalLength - instanceTwo.petalLength) ^ 2
  let distance := distance + (instanceOne.petalWidth - instanceTwo.petalWidth) ^ 2
  let distance := distance + (instanceOne.sepalLength - instanceTwo.sepalLength) ^ 2
  let distance := distance + (instanceOne.sepalWidth - instanceTwo.sepalWidth) ^ 2
  rt.sqrt distance

/-- The method `distancePairs.Less`, on the two elements compared. -/
def distancePairs.Less (a b : distancePair) : Bool := decide (a.distance < b.distance)

/-- The loop `for x := 0; x < k; x++` of `getNeighbors`: `n` iterations are
left and `x` is the loop index. -/
def getNeighbors.loop (distances : List distancePair) :
    Nat → Nat → List irisRecord → Option (List irisRecord)
  | 0, _, neighbors => some neighbors
  | n + 1, x, neighbors =>
    match distances[x]? with
    | some p => getNeighbors.loop distances n (x + 1) (neighbors ++ [p.record])
    | none => none

/-- The function `getNeighbors` of `main.go`. -/
def getNeighbors (rt : GoRuntime) (trainingSet : List irisRecord) (testRecord : irisRecord)
    (k : Int) : Option (List irisRecord) :=
  let distances :=
    trainingSet.map (fun t => distancePair.mk t (euclidianDistance rt testRecord t))
  let distances := rt.sort distancePairs.Less distances
  getNeighbors.loop distances k.toNat 0 []

/-- The slice `distances` of `getNeighbors` after `sort.Sort`. -/
def sortedDistances (rt : GoRuntime) (trainingSet : List irisRecord) (testRecord : irisRecord) :
    List distancePair :=
  rt.sort distancePairs.Less
    (trainingSet.map (fun t => distancePair.mk t (euclidianDistance rt testRecord t)))

/-! ## A concrete runtime -/

/-- A computable rational square root, exact on the squares of rationals and
rounded down otherwise. -/
def sqrtApprox (q : ℚ) : ℚ := (Nat.sqrt (q.num.toNat * q.den) : ℚ) / (q.den : ℚ)

/-- Insertion sort by `less`, which keeps equal elements in their input order. -/
def stableSort {α : Type} (less : α → α → Bool) (l : List α) : List α :=
  l.insertionSort (fun a b => less b a = false)

/-- A runtime whose `sort.Sort` is a stable insertion sort and whose `range`
visits a map in insertion order. -/
def stableRuntime : GoRuntime where
  sqrt := sqrtApprox
  sort := stableSort
  sort_perm := fun _ l => List.perm_insertionSort _ l
  sort_sorted := by
    intro α less l h
    obtain ⟨hirr, htr, hneg⟩ := h
    haveI : IsTotal α (fun a b => less b a = false) := ⟨fun a b => by
      by_cases hba : less b a = true
      · right
        by_contra hab
        have hab' : less a b = true := by simpa using hab
        have := htr a b a hab' hba
        rw [hirr a] at this
        exact Bool.noConfusion this
      · left
        simpa using hba⟩
    haveI : IsTrans α (fun a b => less b a = false) :=
      ⟨fun a b c hab hbc => hneg c b a hbc hab⟩
    exact List.sorted_insertionSort (fun a b => less b a = false) l
  mapRange := fun m => m
  mapRange_perm := fun m => List.Perm.refl m

/-- A runtime that differs from `stableRuntime` only in the order in which `range`
visits a map: the reverse of insertion order. -/
def reversedRuntime : GoRuntime where
  sqrt := sqrtApprox
  sort := stableSort
  sort_perm := stableRuntime.sort_perm
  sort_sorted := stableRuntime.sort_sorted
  mapRange := List.reverse
  mapRange_perm := fun m => List.reverse_perm m

/-! ## The library's `sort.Sort`

The transcription below follows the pattern-defeating quicksort that `sort.Sort` runs
since Go 1.19 (`sort/zsortinterface.go`): insertion sort for at most 12 elements,
otherwise a pivot chosen as a median of three (of three medians from 50 elements on),
an attempt at a partial insertion sort, and a partition around the pivot.  Two paths
are left out: after an unbalanced partition the library scatters three elements with a
pseudo-random generator (`breakPatterns`) and, when that has happened too often, falls
back to heapsort; on them `pdqsort` returns `none`. -/

namespace GoSort

/-- The call `data.Less(i, j)`. -/
def less {α : Type} (lt : α → α → Bool) (data : List α) (i j : Nat) : Bool :=
  match data[i]?, data[j]? with
  | some x, some y => lt x y
  | _, _ => false

/-- The call `data.Swap(i, j)`. -/
def swap {α : Type} (data : List α) (i j : Nat) : List α :=
  match data[i]?, data[j]? with
  | some x, some y => (data.set i y).set j x
  | _, _ => data

/-- The inner loop `for j := i; j > a && data.Less(j, j-1); j--` of `insertionSort`. -/
def insertionSortInner {α : Type} (lt : α → α → Bool) (a : Nat) : Nat → List α → List α
  | 0, data => data
  | j + 1, data =>
    if decide (a < j + 1) && less lt data (j + 1) j then
      insertionSortInner lt a j (swap data (j + 1) j)
    else data

/-- The outer loop `for i := a + 1; i < b; i++` of `insertionSort`, from `i` on. -/
def insertionSortOuter {α : Type} (lt : α → α → Bool) (a b : Nat) :
    Nat → Nat → List α → List α
  | 0, _, data => data
  | n + 1, i, data =>
    if i < b then insertionSortOuter lt a b n (i + 1) (insertionSortInner lt a i data)
    else data

/-- The function `insertionSort(data, a, b)`. -/
def insertionSort {α : Type} (lt : α → α → Bool) (data : List α) (a b : Nat) : List α :=
  insertionSortOuter lt a b (b - a) (a + 1) data

/-- The function `order2(data, a, b, swaps)`; the third component is the new `*swaps`. -/
def order2 {α : Type} (lt : α → α → Bool) (data : List α) (a b swaps : Nat) :
    Nat × Nat × Nat :=
  if less lt data b a then (b, a, swaps + 1) else (a, b, swaps)

/-- The function `median(data, a, b, c, swaps)`; the second component is the new
`*swaps`. -/
def median {α : Type} (lt : α → α → Bool) (data : List α) (a b c swaps : Nat) : Nat × Nat :=
  let r₁ := order2 lt data a b swaps
  let r₂ := order2 lt data r₁.2.1 c r₁.2.2
  let r₃ := order2 lt data r₁.1 r₂.1 r₂.2.2
  (r₃.2.1, r₃.2.2)

/-- The function `medianAdjacent(data, a, swaps)`. -/
def medianAdjacent {α : Type} (lt : α → α → Bool) (data : List α) (a swaps : Nat) :
    Nat × Nat :=
  median lt data (a - 1) a (a + 1) swaps

/-- The type `sortedHint`. -/
inductive sortedHint where
  | unknownHint : sortedHint
  | increasingHint : sortedHint
  | decreasingHint : sortedHint
  deriving DecidableEq

/-- The function `choosePivot(data, a, b)`. -/
def choosePivot {α : Type} (lt : α → α → Bool) (data : List α) (a b : Nat) :
    Nat × sortedHint :=
  let l := b - a
  let i := a + l / 4 * 1
  let j := a + l / 4 * 2
  let k := a + l / 4 * 3
  if 8 ≤ l then
    let mi := if 50 ≤ l then medianAdjacent lt data i 0 else (i, 0)
    let mj := if 50 ≤ l then medianAdjacent lt data j mi.2 else (j, mi.2)
    let mk := if 50 ≤ l then medianAdjacent lt data k mj.2 else (k, mj.2)
    let m := median lt data mi.1 mj.1 mk.1 mk.2
    if m.2 = 0 then (m.1, sortedHint.increasingHint)
    else if m.2 = 4 * 3 then (m.1, sortedHint.decreasingHint)
    else (m.1, sortedHint.unknownHint)
  else (j, sortedHint.increasingHint)

/-- The loop `for i < j` of `reverseRange`. -/
def reverseRangeLoop {α : Type} : Nat → Nat → Nat → List α → List α
  | 0, _, _, data => data
  | n + 1, i, j, data =>
    if i < j then reverseRangeLoop n (i + 1) (j - 1) (swap data i j) else data

/-- The function `reverseRange(data, a, b)`. -/
def reverseRange {α : Type} (data : List α) (a b : Nat) : List α :=
  reverseRangeLoop (b - a) a (b - 1) data

/-- The loop `for i < b && !data.Less(i, i-1) { i++ }` of `partialInsertionSort`. -/
def skipOrdered {α : Type} (lt : α → α → Bool) (data : List α) (b : Nat) : Nat → Nat → Nat
  | 0, i => i
  | n + 1, i =>
    if decide (i < b) && !less lt data i (i - 1) then skipOrdered lt data b n (i + 1) else i

/-- The loop `for j := i - 1; j >= 1; j--` of `partialInsertionSort`, from `j` on. -/
def shiftSmaller {α : Type} (lt : α → α → Bool) : Nat → List α → List α
  | 0, data => data
  | j + 1, data =>
    if !less lt data (j + 1) j then data else shiftSmaller lt j (swap data (j + 1) j)

/-- The loop `for j := i + 1; j < b; j++` of `partialInsertionSort`, from `j` on. -/
def shiftGreater {α : Type} (lt : α → α → Bool) (b : Nat) : Nat → Nat → List α → List α
  | 0, _, data => data
  | n + 1, j, data =>
    if j < b then
      if !less lt data j (j - 1) then data
      else shiftGreater lt b n (j + 1) (swap data j (j - 1))
    else data

/-- The loop `for j := 0; j < maxSteps; j++` of `partialInsertionSort`, with `steps`
iterations left; the result is the slice and the returned boolean. -/
def partialInsertionSortLoop {α : Type} (lt : α → α → Bool) (a b : Nat) :
    Nat → Nat → List α → List α × Bool
  | 0, _, data => (data, false)
  | steps + 1, i, data =>
    let i := skipOrdered lt data b (b - a) i
    if i = b then (data, true)
    else if b - a < 50 then (data, false)
    else
      let data := swap data i (i - 1)
      let data := if 2 ≤ i - a then shiftSmaller lt (i - 1) data else data
      let data := if 2 ≤ b - i then shiftGreater lt b (b - a) (i + 1) data else data
      partialInsertionSortLoop lt a b steps i data

/-- The function `partialInsertionSort(data, a, b)`. -/
def partialInsertionSort {α : Type} (lt : α → α → Bool) (data : List α) (a b : Nat) :
    List α × Bool :=
  partialInsertionSortLoop lt a b 5 (a + 1) data

/-- The loop `for i <= j && data.Less(i, a) { i++ }` of `partition`. -/
def scanLess {α : Type} (lt : α → α → Bool) (data : List α) (a j : Nat) : Nat → Nat → Nat
  | 0, i => i
  | n + 1, i =>
    if decide (i ≤ j) && less lt data i a then scanLess lt data a j n (i + 1) else i

/-- The loop `for i <= j && !data.Less(j, a) { j-- }` of `partition`. -/
def scanNotLess {α : Type} (lt : α → α → Bool) (data : List α) (a i : Nat) : Nat → Nat → Nat
  | 0, j => j
  | n + 1, j =>
    if decide (i ≤ j) && !less lt data j a then scanNotLess lt data a i n (j - 1) else j

/-- The loop `for { ... }` of `partition`; the result is the slice and the final `j`. -/
def partitionLoop {α : Type} (lt : α → α → Bool) (a : Nat) :
    Nat → Nat → Nat → List α → List α × Nat
  | 0, _, j, data => (data, j)
  | n + 1, i, j, data =>
    let i := scanLess lt data a j (n + 1) i
    let j := scanNotLess lt data a i (n + 1) j
    if j < i then (data, j)
    else partitionLoop lt a n (i + 1) (j - 1) (swap data i j)

/-- The function `partition(data, a, b, pivot)`; the result is the slice, `newpivot`
and `alreadyPartitioned`. -/
def partition {α : Type} (lt : α → α → Bool) (data : List α) (a b pivot : Nat) :
    List α × Nat × Bool :=
  let data := swap data a pivot
  let i := scanLess lt data a (b - 1) (b - a) (a + 1)
  let j := scanNotLess lt data a i (b - a) (b - 1)
  if j < i then (swap data j a, j, true)
  else
    let r := partitionLoop lt a (b - a) (i + 1) (j - 1) (swap data i j)
    (swap r.1 r.2 a, r.2, false)

/-- The loop `for i <= j && !data.Less(a, i) { i++ }` of `partitionEqual`. -/
def scanNotGreater {α : Type} (lt : α → α → Bool) (data : List α) (a j : Nat) :
    Nat → Nat → Nat
  | 0, i => i
  | n + 1, i =>
    if decide (i ≤ j) && !less lt data a i then scanNotGreater lt data a j n (i + 1) else i

/-- The loop `for i <= j && data.Less(a, j) { j-- }` of `partitionEqual`. -/
def scanGreater {α : Type} (lt : α → α → Bool) (data : List α) (a i : Nat) : Nat → Nat → Nat
  | 0, j => j
  | n + 1, j =>
    if decide (i ≤ j) && less lt data a j then scanGreater lt data a i n (j - 1) else j

/-- The loop `for { ... }` of `partitionEqual`; the result is the slice and the final
`i`. -/
def partitionEqualLoop {α : Type} (lt : α → α → Bool) (a : Nat) :
    Nat → Nat → Nat → List α → List α × Nat
  | 0, i, _, data => (data, i)
  | n + 1, i, j, data =>
    let i := scanNotGreater lt data a j (n + 1) i
    let j := scanGreater lt data a i (n + 1) j
    if j < i then (data, i)
    else partitionEqualLoop lt a n (i + 1) (j - 1) (swap data i j)

/-- The function `partitionEqual(data, a, b, pivot)`; the result is the slice and
`newpivot`. -/
def partitionEqual {α : Type} (lt : α → α → Bool) (data : List α) (a b pivot : Nat) :
    List α × Nat :=
  partitionEqualLoop lt a (b - a + 1) (a + 1) (b - 1) (swap data a pivot)

/-- The function `pdqsort(data, a, b, limit)`, with the two local flags `wasBalanced`
and `wasPartitioned` as arguments: one call is one iteration of its loop.  The first
argument bounds the number of nested iterations. -/
def pdqsort {α : Type} (lt : α → α → Bool) :
    Nat → List α → Nat → Nat → Nat → Bool → Bool → Option (List α)
  | 0, _, _, _, _, _, _ => none
  | fuel + 1, data, a, b, limit, wasBalanced, wasPartitioned =>
    if b - a ≤ 12 then some (insertionSort lt data a b)
    else if limit = 0 then none
    else if !wasBalanced then none
    else
      let c := choosePivot lt data a b
      let reversed := decide (c.2 = sortedHint.decreasingHint)
      let data := if reversed then reverseRange data a b else data
      let pivot := if reversed then (b - 1) - (c.1 - a) else c.1
      let hint := if reversed then sortedHint.increasingHint else c.2
      let p :=
        if wasBalanced && wasPartitioned && decide (hint = sortedHint.increasingHint) then
          partialInsertionSort lt data a b
        else (data, false)
      if p.2 then some p.1
      else if decide (0 < a) && !less lt p.1 (a - 1) pivot then
        let e := partitionEqual lt p.1 a b pivot
        pdqsort lt fuel e.1 e.2 b limit wasBalanced wasPartitioned
      else
        let r := partition lt p.1 a b pivot
        let mid := r.2.1
        if mid - a < b - mid then
          match pdqsort lt fuel r.1 a mid limit true true with
          | some data =>
            pdqsort lt fuel data (mid + 1) b limit (decide ((b - a) / 8 ≤ mid - a)) r.2.2
          | none => none
        else
          match pdqsort lt fuel r.1 (mid + 1) b limit true true with
          | some data =>
            pdqsort lt fuel data a mid limit (decide ((b - a) / 8 ≤ b - mid)) r.2.2
          | none => none

/-- The function `sort.Sort(data)`; `bits.Len(n)` is `Nat.log2 n + 1` for `n > 0`. -/
def sort {α : Type} (lt : α → α → Bool) (data : List α) : Option (List α) :=
  if data.length ≤ 1 then some data
  else pdqsort lt (data.length + 1) data 0 data.length (Nat.log2 data.length + 1) true true

end GoSort

/-- The comparison of two positions of the slice `l` by the elements they hold. -/
def lessAt {α : Type} (less : α → α → Bool) (l : List α) (i j : Nat) : Bool :=
  match l[i]?, l[j]? with
  | some x, some y => less x y
  | _, _ => false

/-- The positions `0 .. len(l) - 1` in the order in which `sort.Sort` leaves the elements
of `l`: the library moves the elements only through `Swap` and compares them only through
`Less`, so it rearranges the positions exactly as it rearranges the elements. -/
def sortedPositions {α : Type} (less : α → α → Bool) (l : List α) : Option (List Nat) :=
  GoSort.sort (lessAt less l) (List.range l.length)

/-- The slice `l` after `sort.Sort`, as far as `GoSort.sort` is transcribed: on the
paths left out, the result of insertion sort stands in. -/
def librarySort {α : Type} (less : α → α → Bool) (l : List α) : List α :=
  match sortedPositions less l with
  | some idx =>
    if idx.Perm (List.range l.length) ∧
        (idx.filterMap (fun i => l[i]?)).Pairwise (fun a b => less b a = false) then
      idx.filterMap (fun i => l[i]?)
    else stableSort less l
  | none => stableSort less l

/-- A runtime whose `sort.Sort` is the library's pattern-defeating quicksort and whose
`range` visits a map in insertion order. -/
def libraryRuntime : GoRuntime where
  sqrt := sqrtApprox
  sort := librarySort
  sort_perm := by
    intro α less l
    have hrange : ∀ m : List α, (List.range m.length).filterMap (fun i => m[i]?) = m := by
      intro m
      induction m with
      | nil => rfl
      | cons x m ih =>
        rw [List.length_cons, List.range_succ_eq_map, List.filterMap_cons, List.filterMap_map]
        simpa [Function.comp_def] using ih
    show (librarySort less l).Perm l
    unfold librarySort
    split
    · split
      · rename_i idx _ h
        have hp := h.1.filterMap (fun i => l[i]?)
        rw [hrange l] at hp
        exact hp
      · exact stableRuntime.sort_perm less l
    · exact stableRuntime.sort_perm less l
  sort_sorted := by
    intro α less l hswo
    show (librarySort less l).Pairwise (fun a b => less b a = false)
    unfold librarySort
    split
    · split
      · rename_i idx _ h
        exact h.2
      · exact stableRuntime.sort_sorted less l hswo
    · exact stableRuntime.sort_sorted less l hswo
  mapRange := fun m => m
  mapRange_perm := fun m => List.Perm.refl m

/-! ## The train/test split of `main` -/

/-- The loop `for i := range recordSet` of `main`, from index `i` on, with the records
still to visit; `draws i` is the value `rand.Float64()` returns in iteration `i`.  The
result is the pair `(trainSet, testSet)`. -/
def main.split (draws : Nat → ℚ) :
    List irisRecord → Nat → List irisRecord × List irisRecord →
      List irisRecord × List irisRecord
  | [], _, sets => sets
  | r :: rest, i, (trainSet, testSet) =>
    if draws i < 4 / 10 then
      main.split draws rest (i + 1) (trainSet ++ [r], testSet)
    else
      main.split draws rest (i + 1) (trainSet, testSet ++ [r])

/-- One iteration of the loop `for x := range testSet` of `main`: the prediction
`result[0].key` for the query `q`, with `result[0]` out of range as `none`. -/
def main.predict (rt : GoRuntime) (trainSet : List irisRecord) (q : irisRecord) (k : Int) :
    Option String :=
  match getNeighbors rt trainSet q k with
  | some neighbors =>
    match (getResponse rt neighbors)[0]? with
    | some vote => some vote.key
    | none => none
  | none => none

/-! ## The neighbour selector as the spec words it -/

/-- The first `k` records of a stable sort of `train` by ascending distance to `q`. -/
def stableNeighbors (rt : GoRuntime) (train : List irisRecord) (q : irisRecord) (k : Nat) :
    List irisRecord :=
  (train.insertionSort
    (fun a b => euclidianDistance rt q a ≤ euclidianDistance rt q b)).take k

/-! ## The distance function in binary64 -/

namespace Float64

end Float64

/-- The runtime's `sort.Sort` keeps distance pairs of equal distance in input order: it
leaves every slice of distance pairs as the stable insertion sort does. -/
def SortsStably (rt : GoRuntime) : Prop :=
  ∀ l : List distancePair, rt.sort distancePairs.Less l = stableSort distancePairs.Less l

/-- A training set of thirteen records: twelve with the same features, labelled `a` to
`l`, followed by the record `m` with other features. -/
def tiedTrainingSet : List irisRecord :=
  [⟨1, 0, 0, 0, "a"⟩, ⟨1, 0, 0, 0, "b"⟩, ⟨1, 0, 0, 0, "c"⟩, ⟨1, 0, 0, 0, "d"⟩,
    ⟨1, 0, 0, 0, "e"⟩, ⟨1, 0, 0, 0, "f"⟩, ⟨1, 0, 0, 0, "g"⟩, ⟨1, 0, 0, 0, "h"⟩,
    ⟨1, 0, 0, 0, "i"⟩, ⟨1, 0, 0, 0, "j"⟩, ⟨1, 0, 0, 0, "k"⟩, ⟨1, 0, 0, 0, "l"⟩,
    ⟨0, 0, 0, 0, "m"⟩]

/-! ## Neighbour selector: lemmas -/

theorem distancePairs_Less_strictWeakOrder : StrictWeakOrder distancePairs.Less := by
  refine ⟨?_, ?_, ?_⟩
  · intro a
    simp [distancePairs.Less]
  · intro a b c hab hbc
    simp only [distancePairs.Less, decide_eq_true_eq] at *
    exact lt_trans hab hbc
  · intro a b c hab hbc
    simp only [distancePairs.Less, decide_eq_false_iff_not, not_lt] at *
    exact le_trans hbc hab

theorem getNeighbors_loop_eq (distances : List distancePair) :
    ∀ (n x : Nat) (neighbors : List irisRecord), x + n ≤ distances.length →
      getNeighbors.loop distances n x neighbors =
        some (neighbors ++ ((distances.drop x).take n).map (fun p => p.record)) := by
  intro n
  induction n with
  | zero => intro x neighbors _; simp [getNeighbors.loop]
  | succ n ih =>
    intro x neighbors h
    have hx : x < distances.length := by omega
    rw [getNeighbors.loop, List.getElem?_eq_getElem hx]
    simp only
    rw [ih (x + 1) _ (by omega), List.drop_eq_getElem_cons hx, List.take_succ_cons,
      List.map_cons, List.append_assoc, List.singleton_append]

theorem getNeighbors_loop_none (distances : List distancePair) :
    ∀ (n x : Nat) (neighbors : List irisRecord), x ≤ distances.length →
      distances.length < x + n → getNeighbors.loop distances n x neighbors = none := by
  intro n
  induction n with
  | zero => intro x neighbors h h'; omega
  | succ n ih =>
    intro x neighbors h h'
    rw [getNeighbors.loop]
    by_cases hx : x < distances.length
    · rw [List.getElem?_eq_getElem hx]
      simp only
      exact ih (x + 1) _ (by omega) (by omega)
    · rw [List.getElem?_eq_none (by omega)]

theorem sortedDistances_length (rt : GoRuntime) (train : List irisRecord) (q : irisRecord) :
    (sortedDistances rt train q).length = train.length := by
  simpa [sortedDistances] using (rt.sort_perm distancePairs.Less
    (train.map (fun t => distancePair.mk t (euclidianDistance rt q t)))).length_eq

theorem sortedDistances_perm (rt : GoRuntime) (train : List irisRecord) (q : irisRecord) :
    ((sortedDistances rt train q).map (fun p => p.record)).Perm train := by
  have h := (rt.sort_perm distancePairs.Less
    (train.map (fun t => distancePair.mk t (euclidianDistance rt q t)))).map (fun p => p.record)
  simpa [sortedDistances, Function.comp_def] using h

theorem sortedDistances_distance (rt : GoRuntime) (train : List irisRecord) (q : irisRecord)
    (p : distancePair) (hp : p ∈ sortedDistances rt train q) :
    p.distance = euclidianDistance rt q p.record := by
  have h := (rt.sort_perm distancePairs.Less
    (train.map (fun t => distancePair.mk t (euclidianDistance rt q t)))).mem_iff.mp hp
  obtain ⟨t, _, rfl⟩ := List.mem_map.mp h
  rfl

theorem sortedDistances_sorted (rt : GoRuntime) (train : List irisRecord) (q : irisRecord) :
    (sortedDistances rt train q).Pairwise (fun a b => a.distance ≤ b.distance) := by
  have h := rt.sort_sorted distancePairs.Less
    (train.map (fun t => distancePair.mk t (euclidianDistance rt q t)))
    distancePairs_Less_strictWeakOrder
  refine h.imp ?_
  intro a b hab
  simpa [distancePairs.Less] using hab

theorem getNeighbors_eq (rt : GoRuntime) (train : List irisRecord) (q : irisRecord) (k : Int)
    (hk : k ≤ train.length) :
    getNeighbors rt train q k =
      some (((sortedDistances rt train q).take k.toNat).map (fun p => p.record)) := by
  have hlen := sortedDistances_length rt train q
  have h := getNeighbors_loop_eq (sortedDistances rt train q) k.toNat 0 [] (by omega)
  simpa [getNeighbors, sortedDistances] using h

theorem take_drop_le (rt : GoRuntime) (train : List irisRecord) (q : irisRecord) (n : Nat)
    (a b : distancePair) (ha : a ∈ (sortedDistances rt train q).take n)
    (hb : b ∈ (sortedDistances rt train q).drop n) : a.distance ≤ b.distance := by
  have h := sortedDistances_sorted rt train q
  rw [← List.take_append_drop n (sortedDistances rt train q), List.pairwise_append] at h
  exact h.2.2 a ha b hb

theorem append_diff_left {α : Type} [DecidableEq α] (l₁ l₂ : List α) :
    (l₁ ++ l₂).diff l₁ = l₂ := by
  induction l₁ with
  | nil => simp
  | cons a l ih => simpa [List.diff_cons] using ih

theorem neighbors_split (rt : GoRuntime) (train : List irisRecord) (q : irisRecord) (n : Nat) :
    train.Perm (((sortedDistances rt train q).take n).map (fun p => p.record) ++
      ((sortedDistances rt train q).drop n).map (fun p => p.record)) := by
  rw [← List.map_append, List.take_append_drop]
  exact (sortedDistances_perm rt train q).symm

theorem getNeighbors_none (rt : GoRuntime) (train : List irisRecord) (q : irisRecord) (k : Int)
    (hk : (train.length : Int) < k) : getNeighbors rt train q k = none := by
  have hlen := sortedDistances_length rt train q
  have h := getNeighbors_loop_none (sortedDistances rt train q) k.toNat 0 [] (by omega)
    (by omega)
  simpa [getNeighbors, sortedDistances] using h

theorem getNeighbors_nonpos (rt : GoRuntime) (train : List irisRecord) (q : irisRecord)
    (k : Int) (hk : k ≤ 0) : getNeighbors rt train q k = some [] := by
  have h0 : k.toNat = 0 := by omega
  simp [getNeighbors, h0, getNeighbors.loop]

/-! ## Vote resolver: lemmas -/

theorem contains_iff (m : VotesMap) (name : String) :
    contains m name = true ↔ name ∈ m.map Prod.fst := by
  simp only [contains, List.any_eq_true, beq_iff_eq, List.mem_map]

theorem mapIndex_of_not_mem (m : VotesMap) (key : String) (h : key ∉ m.map Prod.fst) :
    mapIndex m key = 0 := by
  induction m with
  | nil => rfl
  | cons e m ih =>
    obtain ⟨k, w⟩ := e
    simp only [List.map_cons, List.mem_cons, not_or] at h
    have hk : ¬ k = key := fun hk => h.1 hk.symm
    simp only [mapIndex, hk, if_false]
    exact ih h.2

theorem mem_keys_mapAssign (m : VotesMap) (key : String) (v : Nat) (l : String) :
    l ∈ (mapAssign m key v).map Prod.fst ↔ l = key ∨ l ∈ m.map Prod.fst := by
  induction m with
  | nil => simp [mapAssign]
  | cons e m ih =>
    obtain ⟨k, w⟩ := e
    by_cases hk : k = key
    · subst hk
      simp [mapAssign]
    · simp only [mapAssign, hk, if_false, List.map_cons, List.mem_cons, ih]
      tauto

theorem nodup_keys_mapAssign (m : VotesMap) (key : String) (v : Nat)
    (h : (m.map Prod.fst).Nodup) : ((mapAssign m key v).map Prod.fst).Nodup := by
  induction m with
  | nil => simp [mapAssign]
  | cons e m ih =>
    obtain ⟨k, w⟩ := e
    simp only [List.map_cons, List.nodup_cons] at h
    by_cases hk : k = key
    · subst hk
      simpa [mapAssign] using h
    · simp only [mapAssign, hk, if_false, List.map_cons, List.nodup_cons]
      refine ⟨?_, ih h.2⟩
      rw [mem_keys_mapAssign]
      rintro (h1 | h1)
      · exact hk h1
      · exact h.1 h1

theorem mapIndex_mapAssign (m : VotesMap) (key : String) (v : Nat) (l : String) :
    mapIndex (mapAssign m key v) l = if key = l then v else mapIndex m l := by
  induction m with
  | nil => simp [mapAssign, mapIndex]
  | cons e m ih =>
    obtain ⟨k, w⟩ := e
    by_cases hk : k = key
    · subst hk
      by_cases hl : k = l
      · simp [mapAssign, mapIndex, hl]
      · simp [mapAssign, mapIndex, hl]
    · by_cases hl : k = l
      · subst hl
        have hk' : ¬ key = k := fun h => hk h.symm
        simp [mapAssign, mapIndex, hk, hk']
      · simp [mapAssign, mapIndex, hk, hl, ih]

theorem sum_mapAssign (m : VotesMap) (key : String) (v : Nat) :
    ((mapAssign m key v).map Prod.snd).sum + mapIndex m key = (m.map Prod.snd).sum + v := by
  induction m with
  | nil => simp [mapAssign, mapIndex]
  | cons e m ih =>
    obtain ⟨k, w⟩ := e
    by_cases hk : k = key
    · subst hk
      simp [mapAssign, mapIndex]
      omega
    · simp only [mapAssign, mapIndex, hk, if_false, List.map_cons, List.sum_cons]
      omega

theorem filter_key_of_nodup (m : VotesMap) (l : String) (h : (m.map Prod.fst).Nodup) :
    m.filter (fun e => e.1 == l) = if l ∈ m.map Prod.fst then [(l, mapIndex m l)] else [] := by
  induction m with
  | nil => simp
  | cons e m ih =>
    obtain ⟨k, w⟩ := e
    simp only [List.map_cons, List.nodup_cons] at h
    by_cases hk : k = l
    · subst hk
      have hnot : m.filter (fun e => e.1 == k) = [] := by
        rw [ih h.2, if_neg h.1]
      simp [List.filter_cons, mapIndex, hnot]
    · have hk' : ¬ l = k := fun h => hk h.symm
      simp only [List.filter_cons, beq_iff_eq, hk, if_false, ih h.2, List.map_cons,
        List.mem_cons, hk', false_or, mapIndex]

theorem tallyOf_step (m : VotesMap) (labels : List String) (n : irisRecord)
    (h : TallyOf m labels) : TallyOf (getResponse.step m n) (labels ++ [n.species]) := by
  obtain ⟨hnd, hm⟩ := h
  by_cases hc : contains m n.species = true
  · simp only [getResponse.step, hc, if_true]
    refine ⟨nodup_keys_mapAssign _ _ _ hnd, fun l => ⟨?_, ?_⟩⟩
    · rw [mem_keys_mapAssign, (hm l).1, List.mem_append, List.mem_singleton]
      tauto
    · rw [mapIndex_mapAssign, List.count_append]
      by_cases hl : n.species = l
      · subst hl
        simp [(hm n.species).2]
      · have hl' : ¬ l = n.species := fun h => hl h.symm
        simp [hl, (hm l).2, List.count_cons, hl']
  · simp only [getResponse.step, hc, Bool.false_eq_true, if_false]
    have habs : n.species ∉ m.map Prod.fst := fun hmem => hc ((contains_iff m _).mpr hmem)
    refine ⟨nodup_keys_mapAssign _ _ _ hnd, fun l => ⟨?_, ?_⟩⟩
    · rw [mem_keys_mapAssign, (hm l).1, List.mem_append, List.mem_singleton]
      tauto
    · rw [mapIndex_mapAssign, List.count_append]
      by_cases hl : n.species = l
      · subst hl
        have h0 : labels.count n.species = 0 := by
          rw [← (hm n.species).2]
          exact mapIndex_of_not_mem m _ habs
        simp [h0]
      · have hl' : ¬ l = n.species := fun h => hl h.symm
        simp [hl, (hm l).2, List.count_cons, hl']

theorem tallyOf_foldl (ns : List irisRecord) :
    ∀ (m : VotesMap) (labels : List String), TallyOf m labels →
      TallyOf (ns.foldl getResponse.step m) (labels ++ ns.map (fun n => n.species)) := by
  induction ns with
  | nil => intro m labels h; simpa using h
  | cons n ns ih =>
    intro m labels h
    have := ih _ _ (tallyOf_step m labels n h)
    simpa [List.append_assoc] using this

theorem tallyOf_tally (ns : List irisRecord) :
    TallyOf (getResponse.tally ns) (ns.map (fun n => n.species)) := by
  have h0 : TallyOf [] [] := ⟨by simp, fun l => by simp [mapIndex]⟩
  simpa [getResponse.tally] using tallyOf_foldl ns [] [] h0

theorem sum_step (m : VotesMap) (n : irisRecord) :
    ((getResponse.step m n).map Prod.snd).sum = (m.map Prod.snd).sum + 1 := by
  by_cases hc : contains m n.species = true
  · simp only [getResponse.step, hc, if_true]
    have := sum_mapAssign m n.species (mapIndex m n.species + 1)
    omega
  · simp only [getResponse.step, hc, Bool.false_eq_true, if_false]
    have habs : n.species ∉ m.map Prod.fst := fun hmem => hc ((contains_iff m _).mpr hmem)
    have := sum_mapAssign m n.species 1
    rw [mapIndex_of_not_mem m _ habs] at this
    omega

theorem sum_foldl (ns : List irisRecord) :
    ∀ m : VotesMap, ((ns.foldl getResponse.step m).map Prod.snd).sum =
      (m.map Prod.snd).sum + ns.length := by
  induction ns with
  | nil => intro m; simp
  | cons n ns ih =>
    intro m
    rw [List.foldl_cons, ih, sum_step, List.length_cons]
    omega

theorem sortReverse_strictWeakOrder :
    StrictWeakOrder (sortReverse sortedClassVotes.Less) := by
  refine ⟨?_, ?_, ?_⟩
  · intro a
    simp [sortReverse, sortedClassVotes.Less]
  · intro a b c hab hbc
    simp only [sortReverse, sortedClassVotes.Less, decide_eq_true_eq] at *
    omega
  · intro a b c hab hbc
    simp only [sortReverse, sortedClassVotes.Less, decide_eq_false_iff_not] at *
    omega

theorem getResponse_perm (rt : GoRuntime) (ns : List irisRecord) :
    (getResponse rt ns).Perm ((getResponse.tally ns).map (fun e => classVote.mk e.1 e.2)) :=
  (rt.sort_perm _ _).trans ((rt.mapRange_perm _).map _)

theorem getResponse_sorted (rt : GoRuntime) (ns : List irisRecord) :
    (getResponse rt ns).Pairwise (fun a b => b.value ≤ a.value) := by
  have h := rt.sort_sorted (sortReverse sortedClassVotes.Less)
    ((rt.mapRange (getResponse.tally ns)).map (fun e => classVote.mk e.1 e.2))
    sortReverse_strictWeakOrder
  refine h.imp ?_
  intro a b hab
  simpa [sortReverse, sortedClassVotes.Less] using hab

theorem getResponse_filter (rt : GoRuntime) (ns : List irisRecord) (label : String) :
    (getResponse rt ns).filter (fun e => e.key == label) =
      if label ∈ ns.map (fun n => n.species) then
        [classVote.mk label ((ns.map (fun n => n.species)).count label)]
      else [] := by
  obtain ⟨hnd, hm⟩ := tallyOf_tally ns
  have hp := (getResponse_perm rt ns).filter (fun e => e.key == label)
  rw [List.filter_map] at hp
  have hf : (getResponse.tally ns).filter ((fun e : classVote => e.key == label) ∘
      (fun e => classVote.mk e.1 e.2)) =
      (getResponse.tally ns).filter (fun e => e.1 == label) := rfl
  rw [hf, filter_key_of_nodup _ _ hnd, (hm label).2] at hp
  by_cases hl : label ∈ ns.map (fun n => n.species)
  · rw [if_pos ((hm label).1.mpr hl)] at hp
    rw [if_pos hl]
    simpa using hp
  · rw [if_neg (fun h => hl ((hm label).1.mp h))] at hp
    rw [if_neg hl]
    simpa using hp

theorem getResponse_sum (rt : GoRuntime) (ns : List irisRecord) :
    ((getResponse rt ns).map (fun e => e.value)).sum = ns.length := by
  rw [((getResponse_perm rt ns).map (fun e => e.value)).sum_eq, List.map_map]
  have h := sum_foldl ns []
  simpa [getResponse.tally, Function.comp_def] using h

theorem getResponse_value (rt : GoRuntime) (ns : List irisRecord) (e : classVote)
    (he : e ∈ getResponse rt ns) :
    e.key ∈ ns.map (fun n => n.species) ∧
      e.value = (ns.map (fun n => n.species)).count e.key := by
  have hmem : e ∈ (getResponse rt ns).filter (fun x => x.key == e.key) := by
    simp [List.mem_filter, he]
  rw [getResponse_filter] at hmem
  by_cases hl : e.key ∈ ns.map (fun n => n.species)
  · rw [if_pos hl, List.mem_singleton] at hmem
    refine ⟨hl, ?_⟩
    have := congrArg classVote.value hmem
    simpa using this
  · rw [if_neg hl] at hmem
    simp at hmem

theorem getResponse_head_majority (rt : GoRuntime) (ns : List irisRecord) (label : String)
    (hne : ns ≠ [])
    (hmaj : ∀ other, other ≠ label →
      (ns.map (fun n => n.species)).count other < (ns.map (fun n => n.species)).count label) :
    ((getResponse rt ns).head?).map (fun e => e.key) = some label := by
  have hpos : 0 < (ns.map (fun n => n.species)).count label := by
    cases ns with
    | nil => exact absurd rfl hne
    | cons n rest =>
      by_cases hn : n.species = label
      · simp [List.count_cons, hn]
      · exact lt_of_le_of_lt (Nat.zero_le _) (hmaj n.species hn)
  have hlab : label ∈ ns.map (fun n => n.species) := List.count_pos_iff.mp hpos
  have hentry : classVote.mk label ((ns.map (fun n => n.species)).count label) ∈
      getResponse rt ns := by
    have hf := getResponse_filter rt ns label
    rw [if_pos hlab] at hf
    have : classVote.mk label ((ns.map (fun n => n.species)).count label) ∈
        (getResponse rt ns).filter (fun e => e.key == label) := by
      rw [hf]
      exact List.mem_singleton.mpr rfl
    exact (List.mem_filter.mp this).1
  have hsorted := getResponse_sorted rt ns
  have hval := getResponse_value rt ns
  cases hr : getResponse rt ns with
  | nil =>
    rw [hr] at hentry
    cases hentry
  | cons e rest =>
    rw [hr] at hentry hsorted hval
    simp only [List.head?_cons, Option.map_some']
    by_contra hkey
    have hkey' : e.key ≠ label := fun h => hkey (by rw [h])
    have h1 := hmaj e.key hkey'
    have h2 := (hval e (List.mem_cons_self _ _)).2
    have h3 : (ns.map (fun n => n.species)).count label ≤ e.value := by
      rcases List.mem_cons.mp hentry with h | h
      · exact absurd (congrArg classVote.key h).symm hkey'
      · exact (List.pairwise_cons.mp hsorted).1 _ h
    omega

theorem getResponse_entry_mem (rt : GoRuntime) (ns : List irisRecord) (label : String)
    (hlab : label ∈ ns.map (fun n => n.species)) :
    classVote.mk label ((ns.map (fun n => n.species)).count label) ∈ getResponse rt ns := by
  have hf := getResponse_filter rt ns label
  rw [if_pos hlab] at hf
  have : classVote.mk label ((ns.map (fun n => n.species)).count label) ∈
      (getResponse rt ns).filter (fun e => e.key == label) := by
    rw [hf]
    exact List.mem_singleton.mpr rfl
  exact (List.mem_filter.mp this).1

theorem getResponse_ne_nil (rt : GoRuntime) (ns : List irisRecord) (hne : ns ≠ []) :
    getResponse rt ns ≠ [] := by
  cases ns with
  | nil => exact absurd rfl hne
  | cons n rest =>
    have h := getResponse_entry_mem rt (n :: rest) n.species (by simp)
    exact List.ne_nil_of_mem h

theorem getResponse_value_pos (rt : GoRuntime) (ns : List irisRecord) (e : classVote)
    (he : e ∈ getResponse rt ns) : 1 ≤ e.value := by
  obtain ⟨hkey, hval⟩ := getResponse_value rt ns e he
  rw [hval]
  exact List.count_pos_iff.mpr hkey

theorem getResponse_head_mode (rt : GoRuntime) (ns : List irisRecord) (hne : ns ≠ []) :
    ∃ e, (getResponse rt ns).head? = some e ∧
      e.key ∈ ns.map (fun n => n.species) ∧
      ∀ label, (ns.map (fun n => n.species)).count label ≤
        (ns.map (fun n => n.species)).count e.key := by
  have hsorted := getResponse_sorted rt ns
  have hval := getResponse_value rt ns
  have hentry := getResponse_entry_mem rt ns
  have hnil := getResponse_ne_nil rt ns hne
  cases hr : getResponse rt ns with
  | nil => exact absurd hr hnil
  | cons e rest =>
    rw [hr] at hsorted hval hentry
    have he := hval e (List.mem_cons_self _ _)
    refine ⟨e, rfl, he.1, ?_⟩
    intro label
    by_cases hlab : label ∈ ns.map (fun n => n.species)
    · rw [← he.2]
      rcases List.mem_cons.mp (hentry label hlab) with h | h
      · rw [← h]
      · exact (List.pairwise_cons.mp hsorted).1 _ h
    · rw [List.count_eq_zero_of_not_mem hlab]
      exact Nat.zero_le _

/-! ## Accuracy scorer: lemmas -/

theorem getAccuracy_loop_eq (testSet : List irisRecord) (predictions : List String) :
    ∀ (n x : Nat) (correct : Int), x + n ≤ testSet.length → x + n ≤ predictions.length →
      getAccuracy.loop testSet predictions n x correct =
        some (correct + ((List.range' x n).countP (agreeAt testSet predictions) : Nat)) := by
  intro n
  induction n with
  | zero => intro x correct _ _; simp [getAccuracy.loop]
  | succ n ih =>
    intro x correct ht hp
    have hxt : x < testSet.length := by omega
    have hxp : x < predictions.length := by omega
    rw [getAccuracy.loop, List.getElem?_eq_getElem hxt, List.getElem?_eq_getElem hxp]
    simp only
    rw [ih (x + 1) _ (by omega) (by omega), List.range'_succ, List.countP_cons]
    have hagree : agreeAt testSet predictions x =
        (testSet[x].species == predictions[x]) := by
      simp [agreeAt, List.getElem?_eq_getElem hxt, List.getElem?_eq_getElem hxp]
    rw [hagree]
    by_cases heq : testSet[x].species = predictions[x]
    · simp only [heq, if_true, beq_self_eq_true]
      push_cast
      ring_nf
    · have hb : (testSet[x].species == predictions[x]) = false := by simpa using heq
      simp only [heq, if_false, hb]
      simp

theorem getAccuracy_loop_correctCount (testSet : List irisRecord) (predictions : List String)
    (hlen : testSet.length ≤ predictions.length) :
    getAccuracy.loop testSet predictions testSet.length 0 0 =
      some (correctCount testSet predictions : Int) := by
  rw [getAccuracy_loop_eq testSet predictions testSet.length 0 0 (by omega) (by omega),
    correctCount, List.range_eq_range']
  simp

theorem correctCount_le (testSet : List irisRecord) (predictions : List String) :
    correctCount testSet predictions ≤ testSet.length := by
  have h := List.countP_le_length (agreeAt testSet predictions)
    (l := List.range testSet.length)
  simpa [correctCount] using h

theorem getAccuracy_eq (testSet : List irisRecord) (predictions : List String)
    (hne : testSet ≠ []) (hlen : testSet.length ≤ predictions.length) :
    getAccuracy testSet predictions =
      some (Float64.num
        ((correctCount testSet predictions : ℚ) / (testSet.length : ℚ) * 100)) := by
  have hpos : (testSet.length : ℚ) ≠ 0 := by
    have : testSet.length ≠ 0 := fun h => hne (List.length_eq_zero.mp h)
    exact_mod_cast this
  rw [getAccuracy, getAccuracy_loop_correctCount testSet predictions hlen]
  simp only [Float64.ofInt, Float64.div, Float64.mul]
  have hpos' : ¬ (((testSet.length : Int) : ℚ) = 0) := by
    simpa using hpos
  rw [if_neg hpos']
  simp

theorem agreeAt_eq (testSet : List irisRecord) (predictions : List String) (i : Nat)
    (hit : i < testSet.length) (hip : i < predictions.length) :
    agreeAt testSet predictions i = (testSet[i].species == predictions[i]) := by
  simp [agreeAt, List.getElem?_eq_getElem hit, List.getElem?_eq_getElem hip]

theorem correctCount_of_allCorrect (testSet : List irisRecord) (predictions : List String)
    (hlen : testSet.length = predictions.length) (h : AllCorrect testSet predictions) :
    correctCount testSet predictions = testSet.length := by
  have hall : ∀ i ∈ List.range testSet.length, agreeAt testSet predictions i = true := by
    intro i hi
    have hit : i < testSet.length := List.mem_range.mp hi
    have hip : i < predictions.length := by omega
    rw [agreeAt_eq _ _ i hit hip, beq_iff_eq]
    exact h i _ _ (List.getElem?_eq_getElem hit) (List.getElem?_eq_getElem hip)
  have := List.countP_eq_length.mpr hall
  simpa [correctCount] using this

theorem correctCount_of_allWrong (testSet : List irisRecord) (predictions : List String)
    (hlen : testSet.length = predictions.length) (h : AllWrong testSet predictions) :
    correctCount testSet predictions = 0 := by
  rw [correctCount, List.countP_eq_zero]
  intro i hi
  have hit : i < testSet.length := List.mem_range.mp hi
  have hip : i < predictions.length := by omega
  rw [agreeAt_eq _ _ i hit hip, beq_iff_eq]
  exact h i _ _ (List.getElem?_eq_getElem hit) (List.getElem?_eq_getElem hip)

theorem main_split_spec (draws : Nat → ℚ) (l : List irisRecord) :
    ∀ (i : Nat) (trainSet testSet : List irisRecord),
      ∃ tr te, main.split draws l i (trainSet, testSet) = (trainSet ++ tr, testSet ++ te) ∧
        tr.Sublist l ∧ te.Sublist l ∧ (tr ++ te).Perm l ∧
        tr.length + te.length = l.length := by
  induction l with
  | nil =>
    intro i trainSet testSet
    exact ⟨[], [], by simp [main.split], List.Sublist.refl _, List.Sublist.refl _,
      List.Perm.refl _, rfl⟩
  | cons r rest ih =>
    intro i trainSet testSet
    by_cases hd : draws i < 4 / 10
    · obtain ⟨tr, te, heq, htr, hte, hperm, hlen⟩ := ih (i + 1) (trainSet ++ [r]) testSet
      refine ⟨r :: tr, te, ?_, htr.cons₂ r, hte.cons r, ?_, ?_⟩
      · simp only [main.split, hd, if_true, heq, List.append_assoc, List.singleton_append]
      · exact hperm.cons r
      · simp only [List.length_cons]
        omega
    · obtain ⟨tr, te, heq, htr, hte, hperm, hlen⟩ := ih (i + 1) trainSet (testSet ++ [r])
      refine ⟨tr, r :: te, ?_, htr.cons r, hte.cons₂ r, ?_, ?_⟩
      · simp only [main.split, hd, if_false, heq, List.append_assoc, List.singleton_append]
      · exact List.perm_middle.trans (hperm.cons r)
      · simp only [List.length_cons]
        omega

/-! ## Classifier: lemmas -/

theorem getNeighbors_one (rt : GoRuntime) (train : List irisRecord) (q : irisRecord)
    (hne : train ≠ []) :
    ∃ n, getNeighbors rt train q 1 = some [n] ∧ n ∈ train ∧
      ∀ t ∈ train, euclidianDistance rt q n ≤ euclidianDistance rt q t := by
  have hpos : 0 < train.length := List.length_pos.mpr hne
  have hlen := sortedDistances_length rt train q
  have hsorted := sortedDistances_sorted rt train q
  have hdist := sortedDistances_distance rt train q
  have hperm := sortedDistances_perm rt train q
  have heq := getNeighbors_eq rt train q 1 (by omega)
  cases hsd : sortedDistances rt train q with
  | nil =>
    rw [hsd] at hlen
    simp at hlen
    omega
  | cons p rest =>
    rw [hsd] at heq hsorted hdist hperm
    refine ⟨p.record, by simpa using heq, ?_, ?_⟩
    · exact hperm.mem_iff.mp (by simp)
    · intro t ht
      obtain ⟨p', hp', rfl⟩ := List.mem_map.mp (hperm.mem_iff.mpr ht)
      rw [← hdist p (List.mem_cons_self _ _), ← hdist p' hp']
      rcases List.mem_cons.mp hp' with h | h
      · rw [h]
      · exact (List.pairwise_cons.mp hsorted).1 _ h

theorem main_predict_eq (rt : GoRuntime) (train : List irisRecord) (q : irisRecord) (k : Int)
    (ns : List irisRecord) (label : String) (hn : getNeighbors rt train q k = some ns)
    (hr : ((getResponse rt ns).head?).map (fun e => e.key) = some label) :
    main.predict rt train q k = some label := by
  rw [main.predict, hn]
  simp only
  rw [← List.head?_eq_getElem?]
  cases hh : (getResponse rt ns).head? with
  | none => rw [hh] at hr; simp at hr
  | some e =>
    rw [hh] at hr
    simpa using hr

theorem getResponse_single (rt : GoRuntime) (n : irisRecord) :
    ((getResponse rt [n]).head?).map (fun e => e.key) = some n.species := by
  refine getResponse_head_majority rt [n] n.species (by simp) ?_
  intro other hother
  have h : ¬ n.species = other := fun h => hother h.symm
  simp [List.count_cons, h]

theorem getNeighbors_sorted_initial (rt : GoRuntime) (train : List irisRecord) (q : irisRecord)
    (k : Int) (hk : k ≤ train.length) :
    ∃ s : List irisRecord, s.Perm train ∧
      s.Pairwise (fun a b => euclidianDistance rt q a ≤ euclidianDistance rt q b) ∧
      getNeighbors rt train q k = some (s.take k.toNat) := by
  refine ⟨(sortedDistances rt train q).map (fun p => p.record),
    sortedDistances_perm rt train q, ?_, ?_⟩
  · rw [List.pairwise_map]
    refine (List.Pairwise.and_mem.mp (sortedDistances_sorted rt train q)).imp ?_
    intro a b hab
    rw [← sortedDistances_distance rt train q a hab.1,
      ← sortedDistances_distance rt train q b hab.2.1]
    exact hab.2.2
  · rw [getNeighbors_eq rt train q k hk, List.map_take]

theorem getNeighbors_of_sortsStably (rt : GoRuntime) (train : List irisRecord) (q : irisRecord)
    (k : Int) (hk : k ≤ train.length) (hst : SortsStably rt) :
    getNeighbors rt train q k = some (stableNeighbors rt train q k.toNat) := by
  rw [getNeighbors_eq rt train q k hk, stableNeighbors, List.map_take, sortedDistances, hst]
  congr 2
  have hmap := List.map_insertionSort (fun a b : distancePair => distancePairs.Less b a = false)
    (fun a b : irisRecord => euclidianDistance rt q a ≤ euclidianDistance rt q b)
    (fun p : distancePair => p.record)
    (train.map (fun t => distancePair.mk t (euclidianDistance rt q t)))
    (by
      intro a ha b hb
      obtain ⟨ta, _, rfl⟩ := List.mem_map.mp ha
      obtain ⟨tb, _, rfl⟩ := List.mem_map.mp hb
      simp [distancePairs.Less])
  have hcomp : (train.map (fun t => distancePair.mk t (euclidianDistance rt q t))).map
      (fun p : distancePair => p.record) = train := by
    simp [Function.comp_def]
  rw [hcomp] at hmap
  exact hmap

theorem stableRuntime_sortsStably : SortsStably stableRuntime := fun _ => rfl

/-! ## The claims -/

/-- C1: when `0 < k ≤ len(train)`, `getNeighbors(train, q, k)` returns `k` records that
form a sub-multiset of `train`, and every training record left out of the result is at
least as far from `q` as every returned record. -/
theorem getNeighbors_k_closest (rt : GoRuntime) (train : List irisRecord) (q : irisRecord)
    (k : Int) (h0 : 0 < k) (hk : k ≤ train.length) :
    ∃ result, getNeighbors rt train q k = some result ∧
      (result.length : Int) = k ∧
      result.Subperm train ∧
      ∀ t ∈ train.diff result, ∀ n ∈ result,
        euclidianDistance rt q n ≤ euclidianDistance rt q t := by
  refine ⟨_, getNeighbors_eq rt train q k hk, ?_, ?_, ?_⟩
  · have hlen := sortedDistances_length rt train q
    simp only [List.length_map, List.length_take]
    omega
  · exact (List.sublist_append_left _ _).subperm.trans
      (neighbors_split rt train q k.toNat).symm.subperm
  · intro t ht n hn
    have hperm := (neighbors_split rt train q k.toNat).diff_right
      (((sortedDistances rt train q).take k.toNat).map (fun p => p.record))
    rw [append_diff_left] at hperm
    obtain ⟨b, hb, rfl⟩ := List.mem_map.mp (hperm.mem_iff.mp ht)
    obtain ⟨a, ha, rfl⟩ := List.mem_map.mp hn
    rw [← sortedDistances_distance rt train q a (List.mem_of_mem_take ha),
      ← sortedDistances_distance rt train q b (List.mem_of_mem_drop hb)]
    exact take_drop_le rt train q k.toNat a b ha hb

theorem getNeighbors_k_closest_witness :
    (0 : Int) < 2 ∧
    (2 : Int) ≤ ([⟨5, 5, 5, 5, "B"⟩, ⟨1, 1, 1, 1, "A"⟩, ⟨2, 2, 2, 2, "A"⟩] :
      List irisRecord).length ∧
    ∃ result, getNeighbors stableRuntime
        [⟨5, 5, 5, 5, "B"⟩, ⟨1, 1, 1, 1, "A"⟩, ⟨2, 2, 2, 2, "A"⟩] ⟨11 / 10, 1, 1, 1, "?"⟩ 2 =
        some result ∧
      (result.length : Int) = 2 ∧
      result.Subperm [⟨5, 5, 5, 5, "B"⟩, ⟨1, 1, 1, 1, "A"⟩, ⟨2, 2, 2, 2, "A"⟩] ∧
      ∀ t ∈ ([⟨5, 5, 5, 5, "B"⟩, ⟨1, 1, 1, 1, "A"⟩, ⟨2, 2, 2, 2, "A"⟩] :
          List irisRecord).diff result, ∀ n ∈ result,
        euclidianDistance stableRuntime ⟨11 / 10, 1, 1, 1, "?"⟩ n ≤
          euclidianDistance stableRuntime ⟨11 / 10, 1, 1, 1, "?"⟩ t :=
  ⟨by decide, by decide,
    getNeighbors_k_closest stableRuntime _ _ 2 (by decide) (by decide)⟩

/-- C2: when `0 < k ≤ len(train)`, the list returned by `getNeighbors(train, q, k)` has
length exactly `k`. -/
theorem getNeighbors_length (rt : GoRuntime) (train : List irisRecord) (q : irisRecord)
    (k : Int) (h0 : 0 < k) (hk : k ≤ train.length) :
    ∃ result, getNeighbors rt train q k = some result ∧ (result.length : Int) = k := by
  refine ⟨_, getNeighbors_eq rt train q k hk, ?_⟩
  have hlen := sortedDistances_length rt train q
  simp only [List.length_map, List.length_take]
  omega

theorem getNeighbors_length_witness :
    (0 : Int) < 1 ∧
    (1 : Int) ≤ ([⟨5, 5, 5, 5, "B"⟩, ⟨1, 1, 1, 1, "A"⟩] : List irisRecord).length ∧
    ∃ result, getNeighbors stableRuntime [⟨5, 5, 5, 5, "B"⟩, ⟨1, 1, 1, 1, "A"⟩]
        ⟨11 / 10, 1, 1, 1, "?"⟩ 1 = some result ∧ (result.length : Int) = 1 :=
  ⟨by decide, by decide, getNeighbors_length stableRuntime _ _ 1 (by decide) (by decide)⟩

/-- C3: when `0 < k ≤ len(train)`, the neighbours returned by `getNeighbors(train, q, k)`
are in non-decreasing order of `euclidianDistance` to `q`: for all indices `i < j` of the
result, the distance of `result[i]` is at most that of `result[j]`. -/
theorem getNeighbors_ordered (rt : GoRuntime) (train : List irisRecord) (q : irisRecord)
    (k : Int) (_h0 : 0 < k) (hk : k ≤ train.length) :
    ∃ result, getNeighbors rt train q k = some result ∧
      ∀ (i j : Nat) (hij : i < j) (hj : j < result.length),
        euclidianDistance rt q (result[i]) ≤ euclidianDistance rt q (result[j]) := by
  refine ⟨_, getNeighbors_eq rt train q k hk, ?_⟩
  have hs : (((sortedDistances rt train q).take k.toNat).map (fun p => p.record)).Pairwise
      (fun a b => euclidianDistance rt q a ≤ euclidianDistance rt q b) := by
    rw [List.pairwise_map]
    have hp := (sortedDistances_sorted rt train q).sublist
      (List.take_sublist k.toNat (sortedDistances rt train q))
    have hmem : ∀ p ∈ (sortedDistances rt train q).take k.toNat,
        p ∈ sortedDistances rt train q := fun p hp => List.mem_of_mem_take hp
    refine (List.Pairwise.and_mem.mp hp).imp ?_
    intro a b hab
    rw [← sortedDistances_distance rt train q a (hmem a hab.1),
      ← sortedDistances_distance rt train q b (hmem b hab.2.1)]
    exact hab.2.2
  intro i j hij hj
  exact List.pairwise_iff_getElem.mp hs i j (by omega) hj hij

theorem getNeighbors_ordered_witness :
    (0 : Int) < 2 ∧
    (2 : Int) ≤ ([⟨5, 5, 5, 5, "B"⟩, ⟨1, 1, 1, 1, "A"⟩] : List irisRecord).length ∧
    ∃ result, getNeighbors stableRuntime [⟨5, 5, 5, 5, "B"⟩, ⟨1, 1, 1, 1, "A"⟩]
        ⟨11 / 10, 1, 1, 1, "?"⟩ 2 = some result ∧
      ∀ (i j : Nat) (hij : i < j) (hj : j < result.length),
        euclidianDistance stableRuntime ⟨11 / 10, 1, 1, 1, "?"⟩ (result[i]) ≤
          euclidianDistance stableRuntime ⟨11 / 10, 1, 1, 1, "?"⟩ (result[j]) :=
  ⟨by decide, by decide, getNeighbors_ordered stableRuntime _ _ 2 (by decide) (by decide)⟩

/-- C4: `getResponse(neighbors)` is the exact tally of the neighbours' labels: for every
label, the entries of the result with that key are exactly one entry whose count is the
number of neighbours carrying the label when the label occurs among the neighbours, and
no entry at all when it does not. -/
theorem getResponse_exact_tally (rt : GoRuntime) (neighbors : List irisRecord)
    (label : String) :
    (getResponse rt neighbors).filter (fun e => e.key == label) =
      if label ∈ neighbors.map (fun n => n.species) then
        [classVote.mk label (neighbors.countP (fun n => n.species == label))]
      else [] := by
  rw [getResponse_filter, List.count, List.countP_map]
  rfl

/-- C5: the sequence returned by `getResponse(neighbors)` is sorted by count descending:
for all indices `i < j` of the result, `result[i].value >= result[j].value`. -/
theorem getResponse_descending (rt : GoRuntime) (neighbors : List irisRecord) (i j : Nat)
    (hij : i < j) (hj : j < (getResponse rt neighbors).length) :
    (getResponse rt neighbors)[i].value ≥ (getResponse rt neighbors)[j].value :=
  List.pairwise_iff_getElem.mp (getResponse_sorted rt neighbors) i j (by omega) hj hij

theorem getResponse_descending_witness :
    (0 : Nat) < 1 ∧
    ∃ hj : 1 < (getResponse stableRuntime
        [⟨5, 5, 5, 5, "B"⟩, ⟨1, 1, 1, 1, "A"⟩, ⟨2, 2, 2, 2, "A"⟩]).length,
      (getResponse stableRuntime
          [⟨5, 5, 5, 5, "B"⟩, ⟨1, 1, 1, 1, "A"⟩, ⟨2, 2, 2, 2, "A"⟩])[0].value ≥
        (getResponse stableRuntime
          [⟨5, 5, 5, 5, "B"⟩, ⟨1, 1, 1, 1, "A"⟩, ⟨2, 2, 2, 2, "A"⟩])[1].value :=
  ⟨by decide, by decide,
    getResponse_descending stableRuntime _ 0 1 (by decide) (by decide)⟩

/-- C6: the sum of the counts of all entries of `getResponse(neighbors)` equals
`len(neighbors)`. -/
theorem getResponse_vote_total (rt : GoRuntime) (neighbors : List irisRecord) :
    ((getResponse rt neighbors).map (fun e => e.value)).sum = neighbors.length :=
  getResponse_sum rt neighbors

/-- C7: for a non-empty list of neighbours in which one label occurs strictly more often
than every other label, the first entry of `getResponse(neighbors)` carries that label;
in particular three neighbours labelled A, A, B give the prediction A. -/
theorem getResponse_majority_first :
    (∀ (rt : GoRuntime) (neighbors : List irisRecord) (label : String),
      neighbors ≠ [] →
      (∀ other, other ≠ label →
        neighbors.countP (fun n => n.species == other) <
          neighbors.countP (fun n => n.species == label)) →
      ((getResponse rt neighbors).head?).map (fun e => e.key) = some label) ∧
    (∀ (rt : GoRuntime) (a₁ a₂ b : irisRecord),
      a₁.species = "A" → a₂.species = "A" → b.species = "B" →
      ((getResponse rt [a₁, a₂, b]).head?).map (fun e => e.key) = some "A") := by
  have hcount : ∀ (ns : List irisRecord) (l : String),
      (ns.map (fun n => n.species)).count l = ns.countP (fun n => n.species == l) := by
    intro ns l
    rw [List.count, List.countP_map]
    rfl
  constructor
  · intro rt neighbors label hne hmaj
    refine getResponse_head_majority rt neighbors label hne ?_
    intro other hother
    rw [hcount, hcount]
    exact hmaj other hother
  · intro rt a₁ a₂ b h₁ h₂ hb
    refine getResponse_head_majority rt [a₁, a₂, b] "A" (by simp) ?_
    intro other hother
    have hA : ¬ "A" = other := fun h => hother h.symm
    simp only [List.map_cons, List.map_nil, h₁, h₂, hb, List.count_cons, List.count_nil,
      beq_iff_eq, hA, if_false, beq_self_eq_true, if_true]
    split <;> omega

theorem getResponse_majority_first_witness :
    ([⟨5, 5, 5, 5, "B"⟩, ⟨1, 1, 1, 1, "A"⟩, ⟨2, 2, 2, 2, "A"⟩] : List irisRecord) ≠ [] ∧
    ((getResponse stableRuntime
      [⟨5, 5, 5, 5, "B"⟩, ⟨1, 1, 1, 1, "A"⟩, ⟨2, 2, 2, 2, "A"⟩]).head?).map
        (fun e => e.key) = some "A" :=
  ⟨by simp, getResponse_majority_first.1 stableRuntime
    [⟨5, 5, 5, 5, "B"⟩, ⟨1, 1, 1, 1, "A"⟩, ⟨2, 2, 2, 2, "A"⟩] "A" (by simp)
    (by
      intro other hother
      have hA : ¬ "A" = other := fun h => hother h.symm
      simp only [List.countP_cons, List.countP_nil, beq_iff_eq, hA, if_false, if_true]
      split <;> simp)⟩

/-- C8: for every non-empty test set and every prediction list of the same length,
`getAccuracy(testSet, predictions)` equals `100 * c / len(testSet)`, where `c` is the
number of indices `i` with `testSet[i].species == predictions[i]` (exact rationals). -/
theorem getAccuracy_formula (testSet : List irisRecord) (predictions : List String)
    (hne : testSet ≠ []) (hlen : testSet.length = predictions.length) :
    getAccuracy testSet predictions =
      some (Float64.num
        (100 * (correctCount testSet predictions : ℚ) / (testSet.length : ℚ))) := by
  rw [getAccuracy_eq testSet predictions hne (by omega)]
  congr 2
  ring

theorem getAccuracy_formula_witness :
    ([⟨5, 5, 5, 5, "B"⟩, ⟨1, 1, 1, 1, "A"⟩, ⟨2, 2, 2, 2, "A"⟩] : List irisRecord) ≠ [] ∧
    ([⟨5, 5, 5, 5, "B"⟩, ⟨1, 1, 1, 1, "A"⟩, ⟨2, 2, 2, 2, "A"⟩] : List irisRecord).length =
      ["A", "A", "A"].length ∧
    getAccuracy [⟨5, 5, 5, 5, "B"⟩, ⟨1, 1, 1, 1, "A"⟩, ⟨2, 2, 2, 2, "A"⟩] ["A", "A", "A"] =
      some (Float64.num
        (100 * (correctCount [⟨5, 5, 5, 5, "B"⟩, ⟨1, 1, 1, 1, "A"⟩, ⟨2, 2, 2, 2, "A"⟩]
          ["A", "A", "A"] : ℚ) /
          (([⟨5, 5, 5, 5, "B"⟩, ⟨1, 1, 1, 1, "A"⟩, ⟨2, 2, 2, 2, "A"⟩] :
            List irisRecord).length : ℚ))) :=
  ⟨by simp, by decide, getAccuracy_formula _ _ (by simp) (by decide)⟩

/-- C9, as stated, fails for the empty test set with the empty prediction list: the two
lengths are equal, the division `0 / 0` gives NaN, and NaN is neither `>= 0` nor
`<= 100`. -/
theorem getAccuracy_bounds_counterexample :
    ([] : List irisRecord).length = ([] : List String).length ∧
    getAccuracy [] [] = some Float64.nan ∧
    ¬ ∃ a, getAccuracy [] [] = some a ∧
      Float64.le (Float64.num 0) a = true ∧ Float64.le a (Float64.num 100) = true := by
  refine ⟨rfl, by decide, ?_⟩
  rintro ⟨a, ha, h0, _⟩
  have hnan : getAccuracy [] [] = some Float64.nan := by decide
  rw [hnan] at ha
  cases ha
  simp [Float64.le] at h0

/-- C9, amended: for all non-empty test sets and prediction lists of equal length,
`getAccuracy` returns a value `a` with `0 <= a <= 100`. -/
theorem getAccuracy_bounds (testSet : List irisRecord) (predictions : List String)
    (hne : testSet ≠ []) (hlen : testSet.length = predictions.length) :
    ∃ a, getAccuracy testSet predictions = some a ∧
      Float64.le (Float64.num 0) a = true ∧ Float64.le a (Float64.num 100) = true := by
  refine ⟨_, getAccuracy_eq testSet predictions hne (by omega), ?_, ?_⟩
  · simp only [Float64.le, decide_eq_true_eq]
    positivity
  · simp only [Float64.le, decide_eq_true_eq]
    have hpos : (0 : ℚ) < (testSet.length : ℚ) := by
      have : 0 < testSet.length := List.length_pos.mpr hne
      exact_mod_cast this
    have hle : (correctCount testSet predictions : ℚ) ≤ (testSet.length : ℚ) := by
      exact_mod_cast correctCount_le testSet predictions
    have : (correctCount testSet predictions : ℚ) / (testSet.length : ℚ) ≤ 1 :=
      (div_le_one hpos).mpr hle
    linarith

theorem getAccuracy_bounds_witness :
    ([⟨5, 5, 5, 5, "B"⟩, ⟨1, 1, 1, 1, "A"⟩] : List irisRecord) ≠ [] ∧
    ([⟨5, 5, 5, 5, "B"⟩, ⟨1, 1, 1, 1, "A"⟩] : List irisRecord).length = ["A", "A"].length ∧
    ∃ a, getAccuracy [⟨5, 5, 5, 5, "B"⟩, ⟨1, 1, 1, 1, "A"⟩] ["A", "A"] = some a ∧
      Float64.le (Float64.num 0) a = true ∧ Float64.le a (Float64.num 100) = true :=
  ⟨by simp, by decide, getAccuracy_bounds _ _ (by simp) (by decide)⟩

/-- C10, as stated, fails for the empty test set with the empty prediction list: the
two lengths are equal, every prediction is correct and no prediction is correct (there
is none), and the result is NaN, which is neither 100 nor 0. -/
theorem getAccuracy_extremes_counterexample :
    ([] : List irisRecord).length = ([] : List String).length ∧
    AllCorrect [] [] ∧ AllWrong [] [] ∧
    getAccuracy [] [] = some Float64.nan ∧
    getAccuracy [] [] ≠ some (Float64.num 100) ∧
    getAccuracy [] [] ≠ some (Float64.num 0) := by
  refine ⟨rfl, ?_, ?_, by decide, by decide, by decide⟩
  · intro i t p ht _
    simp at ht
  · intro i t p ht _
    simp at ht

/-- C10, amended: for non-empty test sets and prediction lists of equal length,
`getAccuracy` returns exactly 100 when every prediction equals the corresponding
record's label, and exactly 0 when no prediction equals the corresponding record's
label. -/
theorem getAccuracy_extremes (testSet : List irisRecord) (predictions : List String)
    (hne : testSet ≠ []) (hlen : testSet.length = predictions.length) :
    (AllCorrect testSet predictions →
      getAccuracy testSet predictions = some (Float64.num 100)) ∧
    (AllWrong testSet predictions →
      getAccuracy testSet predictions = some (Float64.num 0)) := by
  have hpos : (testSet.length : ℚ) ≠ 0 := by
    have : testSet.length ≠ 0 := fun h => hne (List.length_eq_zero.mp h)
    exact_mod_cast this
  constructor
  · intro h
    rw [getAccuracy_eq testSet predictions hne (by omega),
      correctCount_of_allCorrect testSet predictions hlen h, div_self hpos]
    norm_num
  · intro h
    rw [getAccuracy_eq testSet predictions hne (by omega),
      correctCount_of_allWrong testSet predictions hlen h]
    simp

theorem getAccuracy_extremes_witness :
    ([⟨5, 5, 5, 5, "B"⟩, ⟨1, 1, 1, 1, "A"⟩] : List irisRecord) ≠ [] ∧
    ([⟨5, 5, 5, 5, "B"⟩, ⟨1, 1, 1, 1, "A"⟩] : List irisRecord).length = ["B", "A"].length ∧
    AllCorrect [⟨5, 5, 5, 5, "B"⟩, ⟨1, 1, 1, 1, "A"⟩] ["B", "A"] ∧
    getAccuracy [⟨5, 5, 5, 5, "B"⟩, ⟨1, 1, 1, 1, "A"⟩] ["B", "A"] =
      some (Float64.num 100) := by
  have hall : AllCorrect [⟨5, 5, 5, 5, "B"⟩, ⟨1, 1, 1, 1, "A"⟩] ["B", "A"] := by
    intro i t p ht hp
    match i with
    | 0 =>
      simp at ht hp
      subst ht hp
      rfl
    | 1 =>
      simp at ht hp
      subst ht hp
      rfl
    | n + 2 => simp at ht
  exact ⟨by simp, by decide, hall,
    (getAccuracy_extremes _ _ (by simp) (by decide)).1 hall⟩

/-- C11: for all records `a` and `b`,
`euclidianDistance(a, b) == euclidianDistance(b, a)`. -/
theorem euclidianDistance_symm (rt : GoRuntime) (a b : irisRecord) :
    euclidianDistance rt a b = euclidianDistance rt b a := by
  simp only [euclidianDistance]
  congr 1
  ring

/-- C13: when `k > len(train)`, `getNeighbors(train, q, k)` fails with an index out of
range instead of returning a neighbour list; in particular it fails for an empty
training set with `k = 3` and for a training set of size 2 with `k = 5`. -/
theorem getNeighbors_k_too_large :
    (∀ (rt : GoRuntime) (train : List irisRecord) (q : irisRecord) (k : Int),
      (train.length : Int) < k → getNeighbors rt train q k = none) ∧
    (∀ (rt : GoRuntime) (q : irisRecord), getNeighbors rt [] q 3 = none) ∧
    (∀ (rt : GoRuntime) (q r₁ r₂ : irisRecord), getNeighbors rt [r₁, r₂] q 5 = none) := by
  refine ⟨getNeighbors_none, ?_, ?_⟩
  · intro rt q
    exact getNeighbors_none rt [] q 3 (by decide)
  · intro rt q r₁ r₂
    exact getNeighbors_none rt [r₁, r₂] q 5 (by simp)

theorem getNeighbors_k_too_large_witness :
    (([⟨5, 5, 5, 5, "B"⟩, ⟨1, 1, 1, 1, "A"⟩] : List irisRecord).length : Int) < 5 ∧
    getNeighbors stableRuntime [⟨5, 5, 5, 5, "B"⟩, ⟨1, 1, 1, 1, "A"⟩]
      ⟨11 / 10, 1, 1, 1, "?"⟩ 5 = none :=
  ⟨by decide, getNeighbors_k_too_large.1 stableRuntime _ _ 5 (by decide)⟩

/-- C14, as stated, fails: with `k = 0` and with `k = -1` the loop body never runs and
`getNeighbors` returns the empty neighbour list; it does not fail. -/
theorem getNeighbors_nonpos_counterexample :
    (0 : Int) ≤ 0 ∧
    getNeighbors stableRuntime [⟨5, 5, 5, 5, "B"⟩, ⟨1, 1, 1, 1, "A"⟩]
      ⟨11 / 10, 1, 1, 1, "?"⟩ 0 = some [] ∧
    (-1 : Int) ≤ 0 ∧
    getNeighbors stableRuntime [⟨5, 5, 5, 5, "B"⟩, ⟨1, 1, 1, 1, "A"⟩]
      ⟨11 / 10, 1, 1, 1, "?"⟩ (-1) = some [] ∧
    getNeighbors stableRuntime [⟨5, 5, 5, 5, "B"⟩, ⟨1, 1, 1, 1, "A"⟩]
      ⟨11 / 10, 1, 1, 1, "?"⟩ 0 ≠ none :=
  ⟨by decide, rfl, by decide, rfl, by
    intro h
    cases h⟩

/-- C14, amended: for every `k <= 0`, `getNeighbors(train, q, k)` returns the empty
neighbour list and does not fail. -/
theorem getNeighbors_nonpos_empty (rt : GoRuntime) (train : List irisRecord) (q : irisRecord)
    (k : Int) (hk : k ≤ 0) : getNeighbors rt train q k = some [] :=
  getNeighbors_nonpos rt train q k hk

theorem getNeighbors_nonpos_empty_witness :
    (-2 : Int) ≤ 0 ∧
    getNeighbors stableRuntime [⟨5, 5, 5, 5, "B"⟩, ⟨1, 1, 1, 1, "A"⟩]
      ⟨11 / 10, 1, 1, 1, "?"⟩ (-2) = some [] :=
  ⟨by decide, getNeighbors_nonpos_empty stableRuntime _ _ (-2) (by decide)⟩

/-- C16, as stated, fails: for neighbours labelled A, A, B, B the first entry of
`getResponse` is `A` when `range` visits the map in insertion order and `B` when it
visits it in the reverse order, so the winner of a tie is not fixed and is not always
the lexicographically smaller label. -/
theorem getResponse_tie_counterexample :
    ((getResponse stableRuntime
      [⟨1, 1, 1, 1, "A"⟩, ⟨1, 1, 1, 1, "A"⟩, ⟨1, 1, 1, 1, "B"⟩, ⟨1, 1, 1, 1, "B"⟩]).head?).map
        (fun e => e.key) = some "A" ∧
    ((getResponse reversedRuntime
      [⟨1, 1, 1, 1, "A"⟩, ⟨1, 1, 1, 1, "A"⟩, ⟨1, 1, 1, 1, "B"⟩, ⟨1, 1, 1, 1, "B"⟩]).head?).map
        (fun e => e.key) = some "B" :=
  ⟨by decide, by decide⟩

/-- C16, amended: for every non-empty neighbour list, whatever the map traversal order,
the first entry of `getResponse(neighbors)` carries a label of the neighbours whose
number of occurrences is the largest; which of several labels tied for the top count
comes first is not fixed. -/
theorem getResponse_first_is_mode (rt : GoRuntime) (neighbors : List irisRecord)
    (hne : neighbors ≠ []) :
    ∃ e, (getResponse rt neighbors).head? = some e ∧
      e.key ∈ neighbors.map (fun n => n.species) ∧
      ∀ label, neighbors.countP (fun n => n.species == label) ≤
        neighbors.countP (fun n => n.species == e.key) := by
  obtain ⟨e, he, hkey, hmax⟩ := getResponse_head_mode rt neighbors hne
  refine ⟨e, he, hkey, ?_⟩
  intro label
  have hcount : ∀ l : String,
      (neighbors.map (fun n => n.species)).count l =
        neighbors.countP (fun n => n.species == l) := by
    intro l
    rw [List.count, List.countP_map]
    rfl
  rw [← hcount, ← hcount]
  exact hmax label

theorem getResponse_first_is_mode_witness :
    ([⟨1, 1, 1, 1, "A"⟩, ⟨1, 1, 1, 1, "A"⟩, ⟨1, 1, 1, 1, "B"⟩, ⟨1, 1, 1, 1, "B"⟩] :
      List irisRecord) ≠ [] ∧
    ∃ e, (getResponse reversedRuntime
        [⟨1, 1, 1, 1, "A"⟩, ⟨1, 1, 1, 1, "A"⟩, ⟨1, 1, 1, 1, "B"⟩,
          ⟨1, 1, 1, 1, "B"⟩]).head? = some e ∧
      e.key ∈ ([⟨1, 1, 1, 1, "A"⟩, ⟨1, 1, 1, 1, "A"⟩, ⟨1, 1, 1, 1, "B"⟩,
        ⟨1, 1, 1, 1, "B"⟩] : List irisRecord).map (fun n => n.species) ∧
      ∀ label, ([⟨1, 1, 1, 1, "A"⟩, ⟨1, 1, 1, 1, "A"⟩, ⟨1, 1, 1, 1, "B"⟩,
          ⟨1, 1, 1, 1, "B"⟩] : List irisRecord).countP (fun n => n.species == label) ≤
        ([⟨1, 1, 1, 1, "A"⟩, ⟨1, 1, 1, 1, "A"⟩, ⟨1, 1, 1, 1, "B"⟩,
          ⟨1, 1, 1, 1, "B"⟩] : List irisRecord).countP (fun n => n.species == e.key) :=
  ⟨by simp, getResponse_first_is_mode reversedRuntime _ (by simp)⟩

/-- C17: the train/test split of `main` places every input record into exactly one of
the two sets: for every record list and every sequence of random draws,
`len(trainSet) + len(testSet) == len(recordSet)`, the two sets together are `recordSet`
as a multiset, and each set keeps its records in input order. -/
theorem main_split_partition (draws : Nat → ℚ) (recordSet : List irisRecord) :
    (main.split draws recordSet 0 ([], [])).1.length +
        (main.split draws recordSet 0 ([], [])).2.length = recordSet.length ∧
    ((main.split draws recordSet 0 ([], [])).1 ++
        (main.split draws recordSet 0 ([], [])).2).Perm recordSet ∧
    (main.split draws recordSet 0 ([], [])).1.Sublist recordSet ∧
    (main.split draws recordSet 0 ([], [])).2.Sublist recordSet := by
  obtain ⟨tr, te, heq, htr, hte, hperm, hlen⟩ := main_split_spec draws recordSet 0 [] []
  rw [heq]
  exact ⟨by simpa using hlen, by simpa using hperm, by simpa using htr, by simpa using hte⟩

/-- C18: for `k = 1` and every non-empty training set, the single neighbour is a
training record whose distance to `q` is minimal over the whole training set and the
classifier's prediction is its label; for the training set
`[(1,1,1,1,"A"), (5,5,5,5,"B")]` and the query `(1.1,1,1,1)` the neighbour is
`(1,1,1,1,"A")` and the prediction is `"A"`, as soon as `math.Sqrt` orders the two
distances `sqrt(0.01)` and `sqrt(63.21)` as their arguments. -/
theorem predict_nearest :
    (∀ (rt : GoRuntime) (train : List irisRecord) (q : irisRecord), train ≠ [] →
      ∃ n, getNeighbors rt train q 1 = some [n] ∧ n ∈ train ∧
        (∀ t ∈ train, euclidianDistance rt q n ≤ euclidianDistance rt q t) ∧
        main.predict rt train q 1 = some n.species) ∧
    (∀ (rt : GoRuntime) (label : String), rt.sqrt (1 / 100) < rt.sqrt (6321 / 100) →
      getNeighbors rt [⟨1, 1, 1, 1, "A"⟩, ⟨5, 5, 5, 5, "B"⟩] ⟨11 / 10, 1, 1, 1, label⟩ 1 =
        some [⟨1, 1, 1, 1, "A"⟩] ∧
      main.predict rt [⟨1, 1, 1, 1, "A"⟩, ⟨5, 5, 5, 5, "B"⟩] ⟨11 / 10, 1, 1, 1, label⟩ 1 =
        some "A") := by
  have hgen : ∀ (rt : GoRuntime) (train : List irisRecord) (q : irisRecord), train ≠ [] →
      ∃ n, getNeighbors rt train q 1 = some [n] ∧ n ∈ train ∧
        (∀ t ∈ train, euclidianDistance rt q n ≤ euclidianDistance rt q t) ∧
        main.predict rt train q 1 = some n.species := by
    intro rt train q hne
    obtain ⟨n, hn, hmem, hmin⟩ := getNeighbors_one rt train q hne
    exact ⟨n, hn, hmem, hmin,
      main_predict_eq rt train q 1 [n] n.species hn (getResponse_single rt n)⟩
  refine ⟨hgen, ?_⟩
  intro rt label hs
  obtain ⟨n, hn, hmem, hmin, hpred⟩ := hgen rt [⟨1, 1, 1, 1, "A"⟩, ⟨5, 5, 5, 5, "B"⟩]
    ⟨11 / 10, 1, 1, 1, label⟩ (by simp)
  have hA : euclidianDistance rt ⟨11 / 10, 1, 1, 1, label⟩ ⟨1, 1, 1, 1, "A"⟩ =
      rt.sqrt (1 / 100) := by
    simp only [euclidianDistance]
    congr 1
    norm_num
  have hB : euclidianDistance rt ⟨11 / 10, 1, 1, 1, label⟩ ⟨5, 5, 5, 5, "B"⟩ =
      rt.sqrt (6321 / 100) := by
    simp only [euclidianDistance]
    congr 1
    norm_num
  have hnA : n = ⟨1, 1, 1, 1, "A"⟩ := by
    rcases List.mem_cons.mp hmem with h | h
    · exact h
    · have hnB : n = ⟨5, 5, 5, 5, "B"⟩ := by simpa using h
      have hle := hmin ⟨1, 1, 1, 1, "A"⟩ (by simp)
      rw [hnB, hA, hB] at hle
      exact absurd hs (not_lt.mpr hle)
  rw [hnA] at hn hpred
  exact ⟨hn, hpred⟩

theorem predict_nearest_witness :
    stableRuntime.sqrt (1 / 100) < stableRuntime.sqrt (6321 / 100) ∧
    getNeighbors stableRuntime [⟨1, 1, 1, 1, "A"⟩, ⟨5, 5, 5, 5, "B"⟩]
      ⟨11 / 10, 1, 1, 1, "?"⟩ 1 = some [⟨1, 1, 1, 1, "A"⟩] ∧
    main.predict stableRuntime [⟨1, 1, 1, 1, "A"⟩, ⟨5, 5, 5, 5, "B"⟩]
      ⟨11 / 10, 1, 1, 1, "?"⟩ 1 = some "A" := by
  have hs : stableRuntime.sqrt (1 / 100) < stableRuntime.sqrt (6321 / 100) := by
    have h : Int.toNat 6321 = 6321 := rfl
    show sqrtApprox (1 / 100) < sqrtApprox (6321 / 100)
    norm_num [sqrtApprox, h]
  exact ⟨hs, predict_nearest.2 stableRuntime "?" hs⟩

/-- C19, as stated, fails: of thirteen training records the first twelve, `a` to `l`,
are at the same distance 1 from the query and the last, `m`, is at distance 0.  The
library's sort moves its pivot, the record `g`, to the front of the slice and ends with
`m, g, c` in front, so `getNeighbors` with `k = 3` returns `m, g, c`, while the first
three records of the stable sort are `m, a, b`. -/
theorem getNeighbors_stable_counterexample :
    (0 : Int) < 3 ∧
    (3 : Int) ≤ tiedTrainingSet.length ∧
    sortedPositions distancePairs.Less
      (tiedTrainingSet.map (fun t =>
        distancePair.mk t (euclidianDistance libraryRuntime ⟨0, 0, 0, 0, "?"⟩ t))) =
      some [12, 6, 2, 3, 4, 5, 0, 7, 8, 9, 10, 11, 1] ∧
    getNeighbors libraryRuntime tiedTrainingSet ⟨0, 0, 0, 0, "?"⟩ 3 =
      some [⟨0, 0, 0, 0, "m"⟩, ⟨1, 0, 0, 0, "g"⟩, ⟨1, 0, 0, 0, "c"⟩] ∧
    stableNeighbors libraryRuntime tiedTrainingSet ⟨0, 0, 0, 0, "?"⟩ 3 =
      [⟨0, 0, 0, 0, "m"⟩, ⟨1, 0, 0, 0, "a"⟩, ⟨1, 0, 0, 0, "b"⟩] :=
  ⟨by decide, by decide, by decide!, by decide!, by decide!⟩

/-- C19, amended: when `0 < k <= len(train)`, `getNeighbors(train, q, k)` equals the
first `k` records of a rearrangement of `train` in ascending order of distance to `q`,
the one `sort.Sort` produces.  The order of records at equal distance, and which of the
records tied at the `k`-th distance are selected, need not be those of a stable sort;
they are whenever `sort.Sort` keeps equal elements in input order, and then the result
is the first `k` records of the stable sort. -/
theorem getNeighbors_sorted_take (rt : GoRuntime) (train : List irisRecord) (q : irisRecord)
    (k : Int) (_h0 : 0 < k) (hk : k ≤ train.length) :
    (∃ s : List irisRecord, s.Perm train ∧
      s.Pairwise (fun a b => euclidianDistance rt q a ≤ euclidianDistance rt q b) ∧
      getNeighbors rt train q k = some (s.take k.toNat)) ∧
    (SortsStably rt →
      getNeighbors rt train q k = some (stableNeighbors rt train q k.toNat)) :=
  ⟨getNeighbors_sorted_initial rt train q k hk, getNeighbors_of_sortsStably rt train q k hk⟩

theorem getNeighbors_sorted_take_witness :
    (0 : Int) < 3 ∧
    (3 : Int) ≤ tiedTrainingSet.length ∧
    (∃ s : List irisRecord, s.Perm tiedTrainingSet ∧
      s.Pairwise (fun a b => euclidianDistance stableRuntime ⟨0, 0, 0, 0, "?"⟩ a ≤
        euclidianDistance stableRuntime ⟨0, 0, 0, 0, "?"⟩ b) ∧
      getNeighbors stableRuntime tiedTrainingSet ⟨0, 0, 0, 0, "?"⟩ 3 =
        some (s.take (3 : Int).toNat)) ∧
    (SortsStably stableRuntime →
      getNeighbors stableRuntime tiedTrainingSet ⟨0, 0, 0, 0, "?"⟩ 3 =
        some (stableNeighbors stableRuntime tiedTrainingSet ⟨0, 0, 0, 0, "?"⟩
          (3 : Int).toNat)) ∧
    SortsStably stableRuntime :=
  ⟨by decide, by decide,
    (getNeighbors_sorted_take stableRuntime _ _ 3 (by decide) (by decide)).1,
    (getNeighbors_sorted_take stableRuntime _ _ 3 (by decide) (by decide)).2,
    stableRuntime_sortsStably⟩

/-- C20: for every non-empty list of neighbours, `getResponse(neighbors)` is a
non-empty sequence whose every entry has count at least 1, so the access `result[0]`
of `main` is in bounds, and a prediction is made, whenever `1 <= k <= len(trainSet)`. -/
theorem getResponse_nonempty :
    (∀ (rt : GoRuntime) (neighbors : List irisRecord), neighbors ≠ [] →
      getResponse rt neighbors ≠ [] ∧ ∀ e ∈ getResponse rt neighbors, 1 ≤ e.value) ∧
    (∀ (rt : GoRuntime) (trainSet : List irisRecord) (q : irisRecord) (k : Int),
      1 ≤ k → k ≤ trainSet.length →
      ∃ neighbors vote, getNeighbors rt trainSet q k = some neighbors ∧
        (getResponse rt neighbors)[0]? = some vote ∧
        main.predict rt trainSet q k = some vote.key) := by
  constructor
  · intro rt neighbors hne
    exact ⟨getResponse_ne_nil rt neighbors hne, getResponse_value_pos rt neighbors⟩
  · intro rt trainSet q k h1 hk
    have hn := getNeighbors_eq rt trainSet q k hk
    have hlen := sortedDistances_length rt trainSet q
    have hne : ((sortedDistances rt trainSet q).take k.toNat).map (fun p => p.record) ≠ [] := by
      intro h
      have := congrArg List.length h
      simp only [List.length_map, List.length_take, List.length_nil] at this
      omega
    have hr := getResponse_ne_nil rt _ hne
    cases hres : getResponse rt
        (((sortedDistances rt trainSet q).take k.toNat).map (fun p => p.record)) with
    | nil => exact absurd hres hr
    | cons vote rest =>
      refine ⟨_, vote, hn, by rw [hres]; simp, ?_⟩
      rw [main.predict, hn]
      simp only
      rw [hres]
      simp

theorem getResponse_nonempty_witness :
    ([⟨5, 5, 5, 5, "B"⟩, ⟨1, 1, 1, 1, "A"⟩] : List irisRecord) ≠ [] ∧
    getResponse stableRuntime [⟨5, 5, 5, 5, "B"⟩, ⟨1, 1, 1, 1, "A"⟩] ≠ [] ∧
    ∀ e ∈ getResponse stableRuntime [⟨5, 5, 5, 5, "B"⟩, ⟨1, 1, 1, 1, "A"⟩], 1 ≤ e.value :=
  ⟨by simp, getResponse_nonempty.1 stableRuntime _ (by simp)⟩

end KNN
